import Mathlib

/-!
Verification of the streaming-completion core of the repository:
the provider router (`getActiveProvider`), the Gemini message
normalization (`toGeminiMessages`), the server-side SSE encoder
(`handleStreaming`), the client-side SSE decoder
(`handleSSELine` / `consumeSSEStream`), and the conversation-id
recovery (`extractChatIdFromContent`).

JavaScript values flowing through these functions are modelled by the
`Json` inductive below; JS truthiness, string coercion and UTF-16
string length are modelled explicitly where the source relies on them.
-/

/-- A JSON-like JavaScript value (the shape of `JSON.parse` results and
of the nested content structures searched by `extractChatIdFromContent`).
Objects are ordered field lists with unique keys, matching JS object
insertion order. -/
inductive Json where
  | null
  | bool (b : Bool)
  | num (n : Int)
  | str (s : String)
  | arr (elems : List Json)
  | obj (fields : List (String × Json))

/-- `record.key` on a JS object: first (and only, keys are unique) binding. -/
def lookupField : List (String × Json) → String → Option Json
  | [], _ => none
  | (k, v) :: rest, key => if k = key then some v else lookupField rest key

/-- Property access `value.key`: only objects have named fields here. -/
def getField : Json → String → Option Json
  | Json.obj fs, key => lookupField fs key
  | _, _ => none

/-- JS truthiness of a value. -/
def jsTruthy : Json → Bool
  | Json.null => false
  | Json.bool b => b
  | Json.num n => !(n == 0)
  | Json.str s => !(s == "")
  | Json.arr _ => true
  | Json.obj _ => true

/-- JS string length (`s.length`): UTF-16 code units, so astral-plane
codepoints count as two. -/
def jsLength (s : String) : Nat :=
  (s.data.map (fun c => if c.toNat ≥ 0x10000 then 2 else 1)).sum

/-- `isValidChatId` from src/hooks/use-chat.ts: rejects the placeholder
literal and anything of length ≤ 10; accepts a hyphenated string of
length > 20 or any string of length > 15. -/
def isValidChatId (id : String) : Bool :=
  if id = "hello-world" ∨ jsLength id ≤ 10 then false
  else (id.data.contains '-' && decide (jsLength id > 20)) || decide (jsLength id > 15)

/-- The `record.id` branch of the field test in `search`
(src/hooks/use-chat.ts): `record.id && typeof record.id === "string"
&& isValidChatId(record.id)`. -/
def idHit (fields : List (String × Json)) : Option String :=
  match lookupField fields "id" with
  | some (Json.str c) => if c ≠ "" ∧ isValidChatId c then some c else none
  | _ => none

/-- The field test performed at each object node by `search`: the
`chatId` field first, then the `id` field. A present-but-falsy,
non-string or invalid `chatId` falls through to the `id` test. -/
def nodeFieldHit (fields : List (String × Json)) : Option String :=
  match lookupField fields "chatId" with
  | some (Json.str c) => if c ≠ "" ∧ isValidChatId c then some c else idHit fields
  | some _ => idHit fields
  | none => idHit fields

mutual
/-- The recursive `search` of `extractChatIdFromContent`
(src/hooks/use-chat.ts): non-objects are ignored; object nodes are
tested via `nodeFieldHit`, then searched depth-first through array
elements or object field values, short-circuiting on the first hit. -/
def searchJson : Json → Option String
  | Json.obj fields =>
      match nodeFieldHit fields with
      | some c => some c
      | none => searchFields fields
  | Json.arr elems => searchElems elems
  | _ => none

/-- Depth-first search through `Object.values(record)` in order. -/
def searchFields : List (String × Json) → Option String
  | [] => none
  | (_, v) :: rest =>
      match searchJson v with
      | some c => some c
      | none => searchFields rest

/-- Depth-first search through array elements in order
(`obj.forEach(search)` with the shared `foundChatId` short-circuit). -/
def searchElems : List Json → Option String
  | [] => none
  | v :: rest =>
      match searchJson v with
      | some c => some c
      | none => searchElems rest
end


/-- `extractChatIdFromContent` from src/hooks/use-chat.ts:
`content.forEach(search)` over the top-level array, returning the
first accepted candidate. -/
def extractChatIdFromContent (content : List Json) : Option String :=
  searchElems content

mutual
/-- Nesting depth of a value (leaves have depth 1). -/
def depthJson : Json → Nat
  | Json.arr xs => 1 + depthElemsJ xs
  | Json.obj fs => 1 + depthFieldsJ fs
  | _ => 1

def depthFieldsJ : List (String × Json) → Nat
  | [] => 0
  | (_, v) :: rest => max (depthJson v) (depthFieldsJ rest)

def depthElemsJ : List Json → Nat
  | [] => 0
  | v :: rest => max (depthJson v) (depthElemsJ rest)
end


mutual
/-- Fuel-guarded variant of `searchJson`: `none` means the fuel (an
explicit recursion-depth guard absent from the source) ran out. -/
def searchJsonFuel : Nat → Json → Option (Option String)
  | 0, _ => none
  | fuel + 1, Json.obj fields =>
      match nodeFieldHit fields with
      | some c => some (some c)
      | none => searchFieldsFuel fuel fields
  | fuel + 1, Json.arr elems => searchElemsFuel fuel elems
  | _ + 1, _ => some none

def searchFieldsFuel : Nat → List (String × Json) → Option (Option String)
  | _, [] => some none
  | fuel, (_, v) :: rest =>
      match searchJsonFuel fuel v with
      | none => none
      | some (some c) => some (some c)
      | some none => searchFieldsFuel fuel rest

def searchElemsFuel : Nat → List Json → Option (Option String)
  | _, [] => some none
  | fuel, v :: rest =>
      match searchJsonFuel fuel v with
      | none => none
      | some (some c) => some (some c)
      | some none => searchElemsFuel fuel rest
end


mutual
/-- True when no structure anywhere in the value has a field named
`chatId` or `id`. -/
def noIdFieldNames : Json → Bool
  | Json.obj fs => noIdFieldNamesFs fs
  | Json.arr xs => noIdFieldNamesList xs
  | _ => true

def noIdFieldNamesFs : List (String × Json) → Bool
  | [] => true
  | (k, v) :: rest =>
      !(k == "chatId") && !(k == "id") && noIdFieldNames v && noIdFieldNamesFs rest

def noIdFieldNamesList : List Json → Bool
  | [] => true
  | v :: rest => noIdFieldNames v && noIdFieldNamesList rest
end

/-- ASCII lowercase fold (`toLowerCase` as used on ASCII env values). -/
def asciiLowerChar (c : Char) : Char :=
  if 'A' ≤ c ∧ c ≤ 'Z' then Char.ofNat (c.toNat + 32) else c

/-- `s.toLowerCase()` for the ASCII strings compared by the router. -/
def asciiLower (s : String) : String := String.mk (s.data.map asciiLowerChar)

/-- The read-only environment consumed by the provider router
(src/unnamed/part_000): `AI_PROVIDER`, `OPENAI_API_KEY`,
`GEMINI_API_KEY`, `ANTHROPIC_API_KEY`. An unset variable is `none`. -/
structure Env where
  aiProvider : Option String
  openaiApiKey : Option String
  geminiApiKey : Option String
  anthropicApiKey : Option String

/-- JS truthiness of an env var: set and non-empty. -/
def envTruthy : Option String → Bool
  | none => false
  | some s => !(s == "")

/-- The part of `getActiveProvider` after the per-request override
check: explicit `AI_PROVIDER` setting (lowercased), then the first
available API key in the order OpenAI, Gemini, Claude, then the
`"openai"` default. -/
def getActiveProviderAuto (env : Env) : String :=
  let envProvider := env.aiProvider.map asciiLower
  if envProvider = some "gemini" then "gemini"
  else if envProvider = some "claude" then "claude"
  else if envProvider = some "openai" then "openai"
  else if envTruthy env.openaiApiKey then "openai"
  else if envTruthy env.geminiApiKey then "gemini"
  else if envTruthy env.anthropicApiKey then "claude"
  else "openai"

/-- `getActiveProvider` from src/unnamed/part_000: a requested override
that names a provider wins outright; otherwise fall back to the
environment-driven resolution. -/
def getActiveProvider (env : Env) (requested : Option String) : String :=
  match requested with
  | some r =>
      if r = "openai" ∨ r = "gemini" ∨ r = "claude" then r
      else getActiveProviderAuto env
  | none => getActiveProviderAuto env

/-- Follows the claim text: the first provider, in the fixed order
OpenAI, Gemini, Claude, whose credential is configured (present and
non-empty), else the `"openai"` fallback. -/
def specFirstConfigured (env : Env) : String :=
  if envTruthy env.openaiApiKey then "openai"
  else if envTruthy env.geminiApiKey then "gemini"
  else if envTruthy env.anthropicApiKey then "claude"
  else "openai"

/-- Follows the claim text: a configured default-provider setting that
is a valid member (case-insensitively, as the source lowercases it) is
returned, else the first configured provider. -/
def specDefaultSetting (env : Env) : String :=
  match env.aiProvider.map asciiLower with
  | some d =>
      if d = "openai" ∨ d = "gemini" ∨ d = "claude" then d
      else specFirstConfigured env
  | none => specFirstConfigured env

/-- Follows the claim text for the whole precedence chain. -/
def resolveSpec (env : Env) (requested : Option String) : String :=
  match requested with
  | some r =>
      if r = "openai" ∨ r = "gemini" ∨ r = "claude" then r
      else specDefaultSetting env
  | none => specDefaultSetting env

/-- Message roles of the provider-agnostic `ChatMessage` shape. -/
inductive Role where
  | system
  | user
  | assistant
deriving DecidableEq

/-- `ChatMessage` from src/unnamed/part_000. -/
structure ChatMsg where
  role : Role
  content : String
deriving DecidableEq

/-- Gemini history roles. -/
inductive GemRole where
  | user
  | model
deriving DecidableEq

/-- One Gemini history entry `{role, parts:[{text}]}` (each part is its
text). -/
structure GemMsg where
  role : GemRole
  parts : List String
deriving DecidableEq

/-- The result shape of `toGeminiMessages`. -/
structure GeminiShape where
  systemInstruction : String
  history : List GemMsg
  lastMessage : String
deriving DecidableEq

/-- `systemInstruction += (systemInstruction ? "\n" : "") + msg.content`. -/
def appendSys (si c : String) : String := si ++ ((if si = "" then "" else "\n") ++ c)

/-- `{role: msg.role === "assistant" ? "model" : "user", parts: [{text: msg.content}]}`. -/
def toGemHistory (m : ChatMsg) : GemMsg :=
  ⟨if m.role = Role.assistant then GemRole.model else GemRole.user, [m.content]⟩

/-- The indexed loop of `toGeminiMessages` (src/unnamed/part_000),
written structurally: the singleton case is the `i === messages.length - 1`
iteration. -/
def toGeminiLoop : List ChatMsg → GeminiShape → GeminiShape
  | [], acc => acc
  | [m], acc =>
      if m.role = Role.system then
        { acc with systemInstruction := appendSys acc.systemInstruction m.content }
      else if m.role = Role.user then
        { acc with lastMessage := m.content }
      else
        { acc with history := acc.history ++ [toGemHistory m] }
  | m :: m2 :: rest, acc =>
      if m.role = Role.system then
        toGeminiLoop (m2 :: rest)
          { acc with systemInstruction := appendSys acc.systemInstruction m.content }
      else
        toGeminiLoop (m2 :: rest) { acc with history := acc.history ++ [toGemHistory m] }

/-- `toGeminiMessages` from src/unnamed/part_000. -/
def toGeminiMessages (messages : List ChatMsg) : GeminiShape :=
  toGeminiLoop messages ⟨"", [], ""⟩

/-- Contents of the system messages, in order. -/
def sysContents (msgs : List ChatMsg) : List String :=
  (msgs.filter (fun m => m.role == Role.system)).map (fun m => m.content)

/-- Newline-joined concatenation, as the claim words it. -/
def newlineJoin : List String → String
  | [] => ""
  | [c] => c
  | c :: rest => c ++ "\n" ++ newlineJoin rest

/-- History relay per the claim: every non-system message, assistant
mapped to model and anything else to user. -/
def specHistOf (msgs : List ChatMsg) : List GemMsg :=
  (msgs.filter (fun m => !(m.role == Role.system))).map toGemHistory

/-- The Gemini shape as the claim describes it, with the one amendment
the code forces: system contents are newline-joined after dropping
leading empty contents (the source inserts a separator only once the
accumulated instruction is non-empty). The last message is extracted
as the final turn only if its role is user; otherwise it stays in the
relayed history (if non-system) and the final-turn slot is empty. -/
def specGemini (msgs : List ChatMsg) : GeminiShape :=
  let instr := newlineJoin ((sysContents msgs).dropWhile (fun c => c == ""))
  match msgs.getLast? with
  | none => ⟨instr, [], ""⟩
  | some last =>
      if last.role = Role.user then ⟨instr, specHistOf msgs.dropLast, last.content⟩
      else ⟨instr, specHistOf msgs, ""⟩

/-- Whether the loop's final-turn extraction fires. -/
def lastIsUser (msgs : List ChatMsg) : Bool :=
  match msgs.getLast? with
  | some last => last.role == Role.user
  | none => false

/-- The history component the loop produces. -/
def gemHistPart (msgs : List ChatMsg) : List GemMsg :=
  match msgs.getLast? with
  | some last => if last.role = Role.user then specHistOf msgs.dropLast else specHistOf msgs
  | none => []

/-- The final-turn component the loop produces. -/
def gemLastPart (msgs : List ChatMsg) : String :=
  match msgs.getLast? with
  | some last => if last.role = Role.user then last.content else ""
  | none => ""

/-- One wire event of the SSE protocol (§ the `data:` frames written by
`handleStreaming`). -/
inductive WireEvent where
  | chatMeta (cid : String)
  | content (delta : String)
  | done
deriving DecidableEq

/-- Outcome of one `handleStreaming` run: frames enqueued in order,
whether `controller.error` fired, and the text handed to
`addMessageToChat` (when it was invoked). -/
structure EncodeResult where
  events : List WireEvent
  errored : Bool
  persisted : Option String
deriving DecidableEq

/-- The `for await (const chunk of stream)` loop of `handleStreaming`:
a truthy (non-empty) `chunk.content` is appended to `fullResponse` and
framed; an empty one is skipped. -/
def streamLoop : List String → String → List WireEvent → String × List WireEvent
  | [], acc, evs => (acc, evs)
  | c :: cs, acc, evs =>
      if c ≠ "" then streamLoop cs (acc ++ c) (evs ++ [WireEvent.content c])
      else streamLoop cs acc evs

/-- `handleStreaming` from src/unnamed/part_001. `chunks` are the
contents the provider stream yields before it either completes
(`streamOk = true`) or throws from the next pull
(`streamOk = false`, caught by `controller.error`). On success the
accumulated text is persisted (when a chat id is set) and a `done`
frame is enqueued last; on a throw neither happens. -/
def handleStreaming (chunks : List String) (streamOk : Bool)
    (activeChatId : String) : EncodeResult :=
  let r := streamLoop chunks "" [WireEvent.chatMeta activeChatId]
  if streamOk then
    { events := r.2 ++ [WireEvent.done]
      errored := false
      persisted := if activeChatId ≠ "" then some r.1 else none }
  else
    { events := r.2, errored := true, persisted := none }

/-- Deltas of the content frames, in frame order. -/
def contentDeltas (evs : List WireEvent) : List String :=
  evs.filterMap fun e => match e with
    | WireEvent.content c => some c
    | _ => none

/-- Concatenation of a list of strings, in order. -/
def strConcat : List String → String
  | [] => ""
  | c :: rest => c ++ strConcat rest

/-- Lowercase hex digit, as produced by `JSON.stringify` escapes. -/
def hexDigit (n : Nat) : Char :=
  if n < 10 then Char.ofNat (48 + n) else Char.ofNat (87 + n)

/-- `JSON.stringify` string-character escaping. -/
def jsonEscapeChar (c : Char) : List Char :=
  if c = '"' then ['\\', '"']
  else if c = '\\' then ['\\', '\\']
  else if c = '\x08' then ['\\', 'b']
  else if c = '\t' then ['\\', 't']
  else if c = '\n' then ['\\', 'n']
  else if c = '\x0c' then ['\\', 'f']
  else if c = '\r' then ['\\', 'r']
  else if c.toNat < 0x20 then
    ['\\', 'u', '0', '0', hexDigit (c.toNat / 16), hexDigit (c.toNat % 16)]
  else [c]

/-- `JSON.stringify` of a string value. -/
def jsonQuote (s : String) : String :=
  String.mk ('"' :: s.data.foldr (fun c acc => jsonEscapeChar c ++ acc) ['"'])

/-- The JSON text `handleStreaming` serializes for each event, with the
object-literal key order of the source. -/
def eventJson : WireEvent → String
  | WireEvent.chatMeta cid =>
      "\x7b\"type\":\"chat_metadata\",\"id\":" ++ jsonQuote cid ++ ",\"object\":\"chat\"\x7d"
  | WireEvent.content c =>
      "\x7b\"type\":\"content\",\"content\":" ++ jsonQuote c ++ "\x7d"
  | WireEvent.done => "\x7b\"type\":\"done\"\x7d"

/-- One frame as written to the wire: `data: <json>\n\n`. -/
def frameText (e : WireEvent) : String := "data: " ++ eventJson e ++ "\n\n"

/-- UTF-8 encoding of one codepoint (`TextEncoder`). -/
def utf8EncodeChar (c : Char) : List Nat :=
  let n := c.toNat
  if n < 0x80 then [n]
  else if n < 0x800 then [0xC0 + n / 64, 0x80 + n % 64]
  else if n < 0x10000 then [0xE0 + n / 4096, 0x80 + n / 64 % 64, 0x80 + n % 64]
  else [0xF0 + n / 262144, 0x80 + n / 4096 % 64, 0x80 + n / 64 % 64, 0x80 + n % 64]

/-- `TextEncoder.encode`. -/
def utf8Encode (s : String) : List Nat :=
  s.data.foldr (fun c acc => utf8EncodeChar c ++ acc) []

/-- The byte stream `handleStreaming` writes: the UTF-8 frames in
emission order. -/
def encodeFrames (evs : List WireEvent) : List Nat :=
  evs.foldr (fun e acc => utf8Encode (frameText e) ++ acc) []

/-- U+FFFD, emitted by `TextDecoder` for invalid input. -/
def replacementChar : Char := Char.ofNat 0xFFFD

/-- Continuation-byte count a UTF-8 lead byte announces; `none` for a
byte that cannot start a sequence. -/
def utf8Need (b : Nat) : Option Nat :=
  if b < 0x80 then some 0
  else if 0xC2 ≤ b ∧ b ≤ 0xDF then some 1
  else if 0xE0 ≤ b ∧ b ≤ 0xEF then some 2
  else if 0xF0 ≤ b ∧ b ≤ 0xF4 then some 3
  else none

/-- UTF-8 continuation byte test. -/
def isCont (b : Nat) : Bool := decide (0x80 ≤ b ∧ b < 0xC0)

/-- Decode a complete sequence `lead :: conts` (length already checked),
mapping overlong, surrogate and out-of-range results to U+FFFD. -/
def utf8Finish (lead : Nat) (conts : List Nat) : Char :=
  let cp :=
    match conts with
    | [] => lead
    | [c1] => (lead - 0xC0) * 64 + (c1 - 0x80)
    | [c1, c2] => (lead - 0xE0) * 4096 + (c1 - 0x80) * 64 + (c2 - 0x80)
    | c1 :: c2 :: c3 :: _ =>
        (lead - 0xF0) * 262144 + (c1 - 0x80) * 4096 + (c2 - 0x80) * 64 + (c3 - 0x80)
  let minCp : Nat :=
    match conts with
    | [] => 0
    | [_] => 0x80
    | [_, _] => 0x800
    | _ => 0x10000
  if cp < minCp ∨ (0xD800 ≤ cp ∧ cp ≤ 0xDFFF) ∨ cp > 0x10FFFF then replacementChar
  else Char.ofNat cp

/-- Feed one byte to the incremental UTF-8 decoder when nothing is
pending. -/
def utf8StepFresh (b : Nat) : List Char × List Nat :=
  match utf8Need b with
  | some 0 => ([Char.ofNat b], [])
  | some _ => ([], [b])
  | none => ([replacementChar], [])

/-- Feed one byte to the incremental UTF-8 decoder. -/
def utf8Step (pending : List Nat) (b : Nat) : List Char × List Nat :=
  match pending with
  | [] => utf8StepFresh b
  | lead :: conts =>
      if isCont b then
        match utf8Need lead with
        | some need =>
            if conts.length + 1 = need then ([utf8Finish lead (conts ++ [b])], [])
            else ([], lead :: (conts ++ [b]))
        | none => ([replacementChar], [])
      else
        let r := utf8StepFresh b
        (replacementChar :: r.1, r.2)

/-- `TextDecoder.decode(bytes, {stream: true})`: text decoded from this
chunk plus the pending bytes of a codepoint split across reads, which
carry over to the next call. -/
def utf8DecodeChunk (pending : List Nat) (bytes : List Nat) : String × List Nat :=
  let r := bytes.foldl
    (fun (acc : List Char × List Nat) b =>
      let s := utf8Step acc.2 b
      (acc.1 ++ s.1, s.2))
    ([], pending)
  (String.mk r.1, r.2)

/-- JSON grammar whitespace. -/
def isJsonWs (c : Char) : Bool := c == ' ' || c == '\t' || c == '\n' || c == '\r'

/-- Skip JSON whitespace. -/
def skipWs (cs : List Char) : List Char := cs.dropWhile isJsonWs

/-- Hex digit value. -/
def hexVal (c : Char) : Option Nat :=
  if '0' ≤ c ∧ c ≤ '9' then some (c.toNat - 48)
  else if 'a' ≤ c ∧ c ≤ 'f' then some (c.toNat - 87)
  else if 'A' ≤ c ∧ c ≤ 'F' then some (c.toNat - 55)
  else none

/-- JSON string body after the opening quote: decoded characters and
the remainder after the closing quote. Escapes follow the JSON
grammar; a lone `\u` surrogate becomes U+FFFD (surrogate pairing is
not modelled — no frame in this protocol uses it). Raw control
characters are rejected, as `JSON.parse` rejects them. -/
def parseStringBody : List Char → Option (List Char × List Char)
  | [] => none
  | '"' :: rest => some ([], rest)
  | '\\' :: rest =>
      match rest with
      | '"' :: r => (parseStringBody r).map (fun p => ('"' :: p.1, p.2))
      | '\\' :: r => (parseStringBody r).map (fun p => ('\\' :: p.1, p.2))
      | '/' :: r => (parseStringBody r).map (fun p => ('/' :: p.1, p.2))
      | 'b' :: r => (parseStringBody r).map (fun p => ('\x08' :: p.1, p.2))
      | 'f' :: r => (parseStringBody r).map (fun p => ('\x0c' :: p.1, p.2))
      | 'n' :: r => (parseStringBody r).map (fun p => ('\n' :: p.1, p.2))
      | 'r' :: r => (parseStringBody r).map (fun p => ('\r' :: p.1, p.2))
      | 't' :: r => (parseStringBody r).map (fun p => ('\t' :: p.1, p.2))
      | 'u' :: h1 :: h2 :: h3 :: h4 :: r =>
          match hexVal h1, hexVal h2, hexVal h3, hexVal h4 with
          | some a, some b, some c, some d =>
              let cp := a * 4096 + b * 256 + c * 16 + d
              let ch := if 0xD800 ≤ cp ∧ cp ≤ 0xDFFF then replacementChar else Char.ofNat cp
              (parseStringBody r).map (fun p => (ch :: p.1, p.2))
          | _, _, _, _ => none
      | _ => none
  | c :: rest =>
      if c.toNat < 0x20 then none
      else (parseStringBody rest).map (fun p => (c :: p.1, p.2))

/-- Decimal digit test. -/
def isDigitCh (c : Char) : Bool := decide ('0' ≤ c ∧ c ≤ '9')

/-- Numeric value of a digit list. -/
def natOfDigits (ds : List Char) : Nat :=
  ds.foldl (fun acc c => acc * 10 + (c.toNat - 48)) 0

/-- Optional JSON fraction part (must have at least one digit). -/
def parseFrac : List Char → Option (List Char)
  | '.' :: r =>
      let ds := r.takeWhile isDigitCh
      if ds.isEmpty then none else some (r.drop ds.length)
  | cs => some cs

/-- Optional JSON exponent part (must have at least one digit). -/
def parseExp : List Char → Option (List Char)
  | c :: r =>
      if c == 'e' || c == 'E' then
        let r2 := match r with
          | '+' :: rr => rr
          | '-' :: rr => rr
          | _ => r
        let ds := r2.takeWhile isDigitCh
        if ds.isEmpty then none else some (r2.drop ds.length)
      else some (c :: r)
  | [] => some []

/-- JSON number token: optional minus, integer part without a leading
zero, optional fraction and exponent. Fraction and exponent are
consumed syntactically but the model keeps only the integer part — no
claim depends on non-integer numeric values. -/
def parseNumberTok (cs : List Char) : Option (Int × List Char) :=
  let p : Bool × List Char := match cs with
    | '-' :: r => (true, r)
    | _ => (false, cs)
  let intDigits := p.2.takeWhile isDigitCh
  if intDigits.isEmpty then none
  else if intDigits.length > 1 ∧ intDigits.head? = some '0' then none
  else
    match parseFrac (p.2.drop intDigits.length) with
    | none => none
    | some rest1 =>
        match parseExp rest1 with
        | none => none
        | some rest2 =>
            let n : Int := Int.ofNat (natOfDigits intDigits)
            some (if p.1 then -n else n, rest2)

/-- Bool test that `p` is an initial run of `cs`. -/
def leadsWith : List Char → List Char → Bool
  | [], _ => true
  | _ :: _, [] => false
  | p :: ps, c :: cs => p == c && leadsWith ps cs

/-- Insert a parsed object member: a duplicate key overwrites in place
(`JSON.parse` keeps the first position, last value). -/
def insertField : List (String × Json) → String → Json → List (String × Json)
  | [], k, v => [(k, v)]
  | (k0, v0) :: rest, k, v =>
      if k0 = k then (k0, v) :: rest else (k0, v0) :: insertField rest k v

mutual
/-- Recursive-descent JSON value parser. The fuel only bounds nesting
and member counts; `jsonParse` supplies more than any input can use. -/
def parseValue : Nat → List Char → Option (Json × List Char)
  | 0, _ => none
  | fuel + 1, cs =>
      match skipWs cs with
      | [] => none
      | '"' :: rest => (parseStringBody rest).map (fun p => (Json.str (String.mk p.1), p.2))
      | '{' :: rest =>
          match skipWs rest with
          | '}' :: r2 => some (Json.obj [], r2)
          | r => parseMembers fuel [] r
      | '[' :: rest =>
          match skipWs rest with
          | ']' :: r2 => some (Json.arr [], r2)
          | r => parseElemsP fuel [] r
      | 't' :: rest =>
          if leadsWith ['r', 'u', 'e'] rest then some (Json.bool true, rest.drop 3) else none
      | 'f' :: rest =>
          if leadsWith ['a', 'l', 's', 'e'] rest then some (Json.bool false, rest.drop 4)
          else none
      | 'n' :: rest =>
          if leadsWith ['u', 'l', 'l'] rest then some (Json.null, rest.drop 3) else none
      | cs2 => (parseNumberTok cs2).map (fun p => (Json.num p.1, p.2))

/-- Object members after `{` (first member not yet consumed). -/
def parseMembers : Nat → List (String × Json) → List Char → Option (Json × List Char)
  | 0, _, _ => none
  | fuel + 1, acc, cs =>
      match cs with
      | '"' :: rest =>
          match parseStringBody rest with
          | none => none
          | some (key, r1) =>
              match skipWs r1 with
              | ':' :: r2 =>
                  match parseValue fuel r2 with
                  | none => none
                  | some (v, r3) =>
                      match skipWs r3 with
                      | ',' :: r4 => parseMembers fuel (insertField acc (String.mk key) v) (skipWs r4)
                      | '}' :: r4 => some (Json.obj (insertField acc (String.mk key) v), r4)
                      | _ => none
              | _ => none
      | _ => none

/-- Array elements after `[` (first element not yet consumed). -/
def parseElemsP : Nat → List Json → List Char → Option (Json × List Char)
  | 0, _, _ => none
  | fuel + 1, acc, cs =>
      match parseValue fuel cs with
      | none => none
      | some (v, r1) =>
          match skipWs r1 with
          | ',' :: r2 => parseElemsP fuel (acc ++ [v]) r2
          | ']' :: r2 => some (Json.arr (acc ++ [v]), r2)
          | _ => none
end


/-- `JSON.parse`: one value, surrounding whitespace allowed, trailing
garbage rejected. -/
def jsonParse (s : String) : Option Json :=
  match parseValue (4 * s.length + 16) s.data with
  | none => none
  | some (v, rest) => if (skipWs rest).isEmpty then some v else none

mutual
/-- JS `String(v)` coercion, as `accumulated += content` performs. -/
def toJSString : Json → String
  | Json.null => "null"
  | Json.bool true => "true"
  | Json.bool false => "false"
  | Json.num n => toString n
  | Json.str s => s
  | Json.obj _ => "[object Object]"
  | Json.arr xs => joinComma xs

/-- `Array.prototype.toString`: elements joined by commas, a null
element contributing nothing. -/
def joinComma : List Json → String
  | [] => ""
  | [Json.null] => ""
  | [x] => toJSString x
  | Json.null :: x2 :: rest => "," ++ joinComma (x2 :: rest)
  | x :: x2 :: rest => toJSString x ++ "," ++ joinComma (x2 :: rest)
end


/-- The callback a parsed SSE line selects. -/
inductive SSEAction where
  | metaA (idv : Json)
  | contentA (payload : Json)

/-- JS `String.prototype.trim` whitespace (the characters relevant
here). -/
def isJsTrimWs (c : Char) : Bool :=
  c == ' ' || c == '\t' || c == '\n' || c == '\r' ||
  c == '\x0b' || c == '\x0c' || c.toNat == 0xA0 || c.toNat == 0xFEFF

/-- `s.trim()`. -/
def jsTrimChars (cs : List Char) : List Char :=
  ((cs.dropWhile isJsTrimWs).reverse.dropWhile isJsTrimWs).reverse

/-- `handleSSELine` from src/hooks/use-chat.ts: ignore lines without
the `data: ` prefix, strip and trim, ignore empty remainders, skip
unparseable lines, and dispatch on the parsed `type` with JS truthiness
tests on `id` / `content`. Any other `type` (including `done`) selects
no callback. -/
def handleSSELine (line : String) : Option SSEAction :=
  if leadsWith ("data: ".data) line.data then
    let jsonStr := String.mk (jsTrimChars (line.data.drop 6))
    if jsonStr = "" then none
    else
      match jsonParse jsonStr with
      | none => none
      | some data =>
          match getField data "type" with
          | some (Json.str t) =>
              if t = "chat_metadata" then
                match getField data "id" with
                | some v => if jsTruthy v then some (SSEAction.metaA v) else none
                | none => none
              else if t = "content" then
                match getField data "content" with
                | some v => if jsTruthy v then some (SSEAction.contentA v) else none
                | none => none
              else none
          | _ => none
  else none

/-- One decoder callback invocation, in order. -/
inductive SSEEvent where
  | onChatData (idv : Json)
  | onContent (accumulated : String)

/-- Decoder state: the running accumulation and the callback
invocations so far. -/
structure DecState where
  accumulated : String
  events : List SSEEvent

/-- One line handled inside `consumeSSEStream`: the `onContent` wrapper
appends the payload to `accumulated` and reports the running total. -/
def processLine (st : DecState) (line : String) : DecState :=
  match handleSSELine line with
  | none => st
  | some (SSEAction.metaA v) => { st with events := st.events ++ [SSEEvent.onChatData v] }
  | some (SSEAction.contentA v) =>
      let acc := st.accumulated ++ toJSString v
      { accumulated := acc, events := st.events ++ [SSEEvent.onContent acc] }

/-- All lines of one decoded chunk, in order. -/
def processLines (st : DecState) (lines : List String) : DecState :=
  lines.foldl processLine st

/-- `text.split("\n")`. -/
def splitNewlines : List Char → List (List Char)
  | [] => [[]]
  | '\n' :: rest => [] :: splitNewlines rest
  | c :: rest =>
      match splitNewlines rest with
      | [] => [[c]]
      | l :: ls => (c :: l) :: ls

/-- One iteration of `consumeSSEStream`'s read loop: decode the chunk
with the streaming `TextDecoder` (carrying only the decoder's pending
bytes), split the decoded text on newlines and handle each line. -/
def consumeStep (s : List Nat × DecState) (chunk : List Nat) : List Nat × DecState :=
  let d := utf8DecodeChunk s.1 chunk
  (d.2, processLines s.2 ((splitNewlines d.1.data).map String.mk))

/-- `consumeSSEStream` from src/hooks/use-chat.ts: repeatedly read a
chunk, decode it with a streaming `TextDecoder`, split the decoded text
on newlines and handle each line. Note that no trailing partial line
carries over between chunks — each chunk's text is split and handled
on its own. Returns the final accumulation and the callback
invocations. -/
def consumeSSEStream (chunks : List (List Nat)) : String × List SSEEvent :=
  let r := chunks.foldl consumeStep ([], ⟨"", []⟩)
  (r.2.accumulated, r.2.events)

/-- The accumulations reported to `onContent`, in invocation order. -/
def contentAccums (evs : List SSEEvent) : List String :=
  evs.filterMap fun e => match e with
    | SSEEvent.onContent a => some a
    | _ => none

/-- `a` is an initial segment of `b`. -/
def strLeads (a b : String) : Prop := ∃ t : String, b = a ++ t

/-- A complete single-frame byte sequence carrying content `"A"`. -/
def c1Bytes : List Nat :=
  utf8Encode "data: \x7b\"type\":\"content\",\"content\":\"A\"\x7d\n\n"

/-- Two frames: content `"A"`, then a frame whose `content` is the
truthy empty array `[]`, whose JS string coercion is empty. -/
def c9Bytes : List Nat :=
  utf8Encode
    ("data: \x7b\"type\":\"content\",\"content\":\"A\"\x7d\n" ++
     "data: \x7b\"type\":\"content\",\"content\":[]\x7d\n")

/-- Invariant of the decoder state: the reported accumulations form a
prefix chain whose last element is a prefix of the current
accumulation. -/
def decStateOk (st : DecState) : Prop :=
  List.Chain' strLeads (contentAccums st.events) ∧
  ∀ a, (contentAccums st.events).getLast? = some a → strLeads a st.accumulated


lemma lookupField_of_noIdFs (fs : List (String × Json)) (key : String)
    (hkey : key = "chatId" ∨ key = "id") (h : noIdFieldNamesFs fs = true) :
    lookupField fs key = none := by
  induction fs with
  | nil => rfl
  | cons p rest ih =>
    obtain ⟨k, v⟩ := p
    simp only [noIdFieldNamesFs, Bool.and_eq_true, beq_iff_eq, Bool.not_eq_true',
      decide_eq_false_iff_not] at h
    obtain ⟨⟨⟨hk1, hk2⟩, _⟩, hrest⟩ := h
    simp only [lookupField]
    rw [if_neg, ih hrest]
    rcases hkey with rfl | rfl
    · simpa using hk1
    · simpa using hk2

lemma nodeFieldHit_of_noIdFs (fs : List (String × Json))
    (h : noIdFieldNamesFs fs = true) : nodeFieldHit fs = none := by
  unfold nodeFieldHit idHit
  rw [lookupField_of_noIdFs fs "chatId" (Or.inl rfl) h,
    lookupField_of_noIdFs fs "id" (Or.inr rfl) h]

lemma searchJson_of_noId (n : Nat) :
    (∀ v : Json, depthJson v ≤ n → noIdFieldNames v = true → searchJson v = none) ∧
    (∀ fs : List (String × Json), depthFieldsJ fs ≤ n → noIdFieldNamesFs fs = true →
      searchFields fs = none) ∧
    (∀ xs : List Json, depthElemsJ xs ≤ n → noIdFieldNamesList xs = true →
      searchElems xs = none) := by
  induction n with
  | zero =>
    refine ⟨fun v hv _ => absurd hv ?_, fun fs _ h => ?_, fun xs _ h => ?_⟩
    · cases v <;> simp [depthJson]
    · cases fs with
      | nil => rfl
      | cons p rest =>
        exfalso
        obtain ⟨k, v⟩ := p
        have : depthJson v ≤ 0 := le_trans (le_max_left _ _) (by assumption)
        cases v <;> simp [depthJson] at this
    · cases xs with
      | nil => rfl
      | cons v rest =>
        exfalso
        have : depthJson v ≤ 0 := le_trans (le_max_left _ _) (by assumption)
        cases v <;> simp [depthJson] at this
  | succ n ih =>
    have hv : ∀ v : Json, depthJson v ≤ n + 1 → noIdFieldNames v = true →
        searchJson v = none := by
      intro v hd hno
      cases v with
      | obj fs =>
        simp only [depthJson, Nat.add_comm 1 (depthFieldsJ fs), Nat.add_le_add_iff_right] at hd
        simp only [noIdFieldNames] at hno
        simp only [searchJson, nodeFieldHit_of_noIdFs fs hno]
        exact ih.2.1 fs hd hno
      | arr xs =>
        simp only [depthJson, Nat.add_comm 1 (depthElemsJ xs), Nat.add_le_add_iff_right] at hd
        simp only [noIdFieldNames] at hno
        simp only [searchJson]
        exact ih.2.2 xs hd hno
      | null => rfl
      | bool b => rfl
      | num m => rfl
      | str s => rfl
    refine ⟨hv, fun fs hd hno => ?_, fun xs hd hno => ?_⟩
    · induction fs with
      | nil => rfl
      | cons p rest ihfs =>
        obtain ⟨k, v⟩ := p
        simp only [depthFieldsJ, max_le_iff] at hd
        simp only [noIdFieldNamesFs, Bool.and_eq_true] at hno
        obtain ⟨⟨⟨_, _⟩, hvno⟩, hrest⟩ := hno
        simp only [searchFields, hv v hd.1 hvno]
        exact ihfs hd.2 hrest
    · induction xs with
      | nil => rfl
      | cons v rest ihxs =>
        simp only [depthElemsJ, max_le_iff] at hd
        simp only [noIdFieldNamesList, Bool.and_eq_true] at hno
        simp only [searchElems, hv v hd.1 hno.1]
        exact ihxs hd.2 hno.2

lemma searchFuel_complete (n : Nat) :
    (∀ v : Json, ∀ fuel, depthJson v ≤ fuel → fuel ≤ n →
      searchJsonFuel fuel v = some (searchJson v)) ∧
    (∀ fs : List (String × Json), ∀ fuel, depthFieldsJ fs ≤ fuel → fuel ≤ n →
      searchFieldsFuel fuel fs = some (searchFields fs)) ∧
    (∀ xs : List Json, ∀ fuel, depthElemsJ xs ≤ fuel → fuel ≤ n →
      searchElemsFuel fuel xs = some (searchElems xs)) := by
  induction n with
  | zero =>
    refine ⟨fun v fuel hd hf => ?_, fun fs fuel hd hf => ?_, fun xs fuel hd hf => ?_⟩
    · interval_cases fuel
      exact absurd hd (by cases v <;> simp [depthJson])
    · interval_cases fuel
      cases fs with
      | nil => rfl
      | cons p rest =>
        exfalso
        obtain ⟨k, v⟩ := p
        have : depthJson v ≤ 0 := le_trans (le_max_left _ _) hd
        cases v <;> simp [depthJson] at this
    · interval_cases fuel
      cases xs with
      | nil => rfl
      | cons v rest =>
        exfalso
        have : depthJson v ≤ 0 := le_trans (le_max_left _ _) hd
        cases v <;> simp [depthJson] at this
  | succ n ih =>
    have hv : ∀ v : Json, ∀ fuel, depthJson v ≤ fuel → fuel ≤ n + 1 →
        searchJsonFuel fuel v = some (searchJson v) := by
      intro v fuel hd hf
      match v, fuel with
      | v, 0 => exact absurd hd (by cases v <;> simp [depthJson])
      | Json.obj fs, fuel + 1 =>
        simp only [depthJson, Nat.add_comm 1 (depthFieldsJ fs), Nat.add_le_add_iff_right] at hd
        simp only [searchJsonFuel, searchJson]
        cases h : nodeFieldHit fs with
        | some c => rfl
        | none => exact ih.2.1 fs fuel hd (Nat.le_of_succ_le_succ hf)
      | Json.arr xs, fuel + 1 =>
        simp only [depthJson, Nat.add_comm 1 (depthElemsJ xs), Nat.add_le_add_iff_right] at hd
        simp only [searchJsonFuel, searchJson]
        exact ih.2.2 xs fuel hd (Nat.le_of_succ_le_succ hf)
      | Json.null, fuel + 1 => rfl
      | Json.bool b, fuel + 1 => rfl
      | Json.num m, fuel + 1 => rfl
      | Json.str s, fuel + 1 => rfl
    refine ⟨hv, fun fs fuel hd hf => ?_, fun xs fuel hd hf => ?_⟩
    · induction fs with
      | nil => cases fuel <;> rfl
      | cons p rest ihfs =>
        obtain ⟨k, v⟩ := p
        simp only [depthFieldsJ, max_le_iff] at hd
        simp only [searchFieldsFuel, searchFields, hv v fuel hd.1 hf]
        cases searchJson v with
        | some c => rfl
        | none => exact ihfs hd.2
    · induction xs with
      | nil => cases fuel <;> rfl
      | cons v rest ihxs =>
        simp only [depthElemsJ, max_le_iff] at hd
        simp only [searchElemsFuel, searchElems, hv v fuel hd.1 hf]
        cases searchJson v with
        | some c => rfl
        | none => exact ihxs hd.2

/-- Claim C6: `extractChatIdFromContent` rejects the `"hello-world"`
placeholder and any candidate of length ≤ 10, accepts exactly the
hyphenated candidates longer than 20 or any candidate longer than 15,
tests `chatId` before `id` at each node, returns `none` for
`{"id":"hello-world"}`, `{"id":"short"}`, an empty array, and any
value with no `chatId`/`id` field at any depth, and returns the value
for `{"chatId":"a1b2c3d4-e5f6-7890-aaaa-bbbbccccdddd"}`. -/
theorem extractChatId_spec :
    (∀ s : String, s = "hello-world" ∨ jsLength s ≤ 10 → isValidChatId s = false) ∧
    (∀ s : String, s ≠ "hello-world" → 10 < jsLength s →
      isValidChatId s =
        ((s.data.contains '-' && decide (jsLength s > 20)) || decide (jsLength s > 15))) ∧
    extractChatIdFromContent [Json.obj [("id", Json.str "hello-world")]] = none ∧
    extractChatIdFromContent [Json.obj [("id", Json.str "short")]] = none ∧
    extractChatIdFromContent [] = none ∧
    extractChatIdFromContent [Json.arr []] = none ∧
    extractChatIdFromContent
      [Json.obj [("chatId", Json.str "a1b2c3d4-e5f6-7890-aaaa-bbbbccccdddd")]] =
      some "a1b2c3d4-e5f6-7890-aaaa-bbbbccccdddd" ∧
    (∀ fields c, lookupField fields "chatId" = some (Json.str c) → c ≠ "" →
      isValidChatId c = true → searchJson (Json.obj fields) = some c) ∧
    (∀ v : Json, noIdFieldNames v = true → searchJson v = none) := by
  refine ⟨?_, ?_, by rfl, by rfl, by rfl, by rfl, by rfl, ?_, ?_⟩
  · intro s h
    unfold isValidChatId
    rw [if_pos h]
  · intro s h1 h2
    unfold isValidChatId
    rw [if_neg]
    push_neg
    exact ⟨h1, h2⟩
  · intro fields c hlk hne hvalid
    simp only [searchJson, nodeFieldHit, hlk, hne, hvalid, ne_eq, not_false_iff, true_and,
      if_pos, and_true]
  · intro v h
    exact (searchJson_of_noId (depthJson v)).1 v le_rfl h

/-- Witness for C6 at concrete inputs. -/
theorem extractChatId_spec_witness :
    isValidChatId "hello-world" = false ∧
    isValidChatId "abcdefghijklmnopq" = true ∧
    searchJson (Json.obj [("chatId", Json.str "a1b2c3d4-e5f6-7890-aaaa-bbbbccccdddd"),
      ("id", Json.str "ffffffff-1111-2222-3333-444444444444")]) =
      some "a1b2c3d4-e5f6-7890-aaaa-bbbbccccdddd" ∧
    searchJson (Json.obj [("name", Json.str "deep"), ("data", Json.arr [Json.num 3])]) = none :=
  ⟨extractChatId_spec.1 "hello-world" (Or.inl rfl),
   by
    have h := extractChatId_spec.2.1 "abcdefghijklmnopq" (by decide) (by decide)
    rw [h]; decide,
   extractChatId_spec.2.2.2.2.2.2.2.1
     [("chatId", Json.str "a1b2c3d4-e5f6-7890-aaaa-bbbbccccdddd"),
      ("id", Json.str "ffffffff-1111-2222-3333-444444444444")]
     "a1b2c3d4-e5f6-7890-aaaa-bbbbccccdddd" rfl (by decide) (by decide),
   extractChatId_spec.2.2.2.2.2.2.2.2
     (Json.obj [("name", Json.str "deep"), ("data", Json.arr [Json.num 3])]) (by rfl)⟩

/-- Claim C10: the unguarded recursion of `extractChatIdFromContent`
terminates on every finite nested value: the fuel-guarded variant
computes the same result as the structural function whenever the fuel
is at least the nesting depth. -/
theorem extractChatId_terminates (content : List Json) (fuel : Nat)
    (h : depthElemsJ content ≤ fuel) :
    searchElemsFuel fuel content = some (extractChatIdFromContent content) :=
  (searchFuel_complete fuel).2.2 content fuel h le_rfl

/-- Witness for C10 at a concrete nested value. -/
theorem extractChatId_terminates_witness :
    depthElemsJ [Json.obj [("a", Json.arr [Json.obj [("id", Json.str "x")]])]] ≤ 5 ∧
    searchElemsFuel 5 [Json.obj [("a", Json.arr [Json.obj [("id", Json.str "x")]])]] =
      some (extractChatIdFromContent
        [Json.obj [("a", Json.arr [Json.obj [("id", Json.str "x")]])]]) :=
  ⟨by decide,
   extractChatId_terminates [Json.obj [("a", Json.arr [Json.obj [("id", Json.str "x")]])]] 5
     (by decide)⟩

lemma getActiveProviderAuto_eq_spec (env : Env) :
    getActiveProviderAuto env = specDefaultSetting env := by
  unfold getActiveProviderAuto specDefaultSetting specFirstConfigured
  cases h : env.aiProvider with
  | none => simp
  | some a =>
    by_cases h1 : asciiLower a = "gemini"
    · simp [h1]
    · by_cases h2 : asciiLower a = "claude"
      · simp [h1, h2]
      · by_cases h3 : asciiLower a = "openai"
        · simp [h1, h2, h3]
        · simp [h1, h2, h3]

/-- Claim C4: `getActiveProvider` resolves exactly by the precedence the
spec gives: valid requested override first (credential or not), then a
valid configured default-provider setting, then the first provider in
the order OpenAI, Gemini, Claude with a credential present, then the
hard-coded `"openai"` fallback. -/
theorem getActiveProvider_precedence (env : Env) (requested : Option String) :
    getActiveProvider env requested = resolveSpec env requested := by
  unfold getActiveProvider resolveSpec
  cases requested with
  | none => exact getActiveProviderAuto_eq_spec env
  | some r =>
    by_cases hr : r = "openai" ∨ r = "gemini" ∨ r = "claude"
    · simp [hr]
    · simp [hr, getActiveProviderAuto_eq_spec env]

lemma specHistOf_cons (m : ChatMsg) (l : List ChatMsg) :
    specHistOf (m :: l) =
      (if m.role = Role.system then [] else [toGemHistory m]) ++ specHistOf l := by
  by_cases h : m.role = Role.system <;> simp [specHistOf, List.filter_cons, h]

lemma gemHistPart_cons_cons (m m2 : ChatMsg) (rest : List ChatMsg) :
    gemHistPart (m :: m2 :: rest) =
      (if m.role = Role.system then [] else [toGemHistory m]) ++ gemHistPart (m2 :: rest) := by
  unfold gemHistPart
  rw [List.getLast?_cons_cons]
  cases h : (m2 :: rest).getLast? with
  | none => simp at h
  | some last =>
    by_cases hl : last.role = Role.user
    · simp only [hl, if_pos]
      rw [show (m :: m2 :: rest).dropLast = m :: (m2 :: rest).dropLast from rfl,
        specHistOf_cons]
    · simp only [hl, if_neg, not_false_iff]
      rw [specHistOf_cons]

lemma lastIsUser_cons_cons (m m2 : ChatMsg) (rest : List ChatMsg) :
    lastIsUser (m :: m2 :: rest) = lastIsUser (m2 :: rest) := by
  unfold lastIsUser
  rw [List.getLast?_cons_cons]

lemma gemLastPart_cons_cons (m m2 : ChatMsg) (rest : List ChatMsg) :
    gemLastPart (m :: m2 :: rest) = gemLastPart (m2 :: rest) := by
  unfold gemLastPart
  rw [List.getLast?_cons_cons]

lemma toGeminiLoop_spec (msgs : List ChatMsg) : ∀ acc : GeminiShape,
    toGeminiLoop msgs acc =
      ⟨List.foldl appendSys acc.systemInstruction (sysContents msgs),
       acc.history ++ gemHistPart msgs,
       if lastIsUser msgs then gemLastPart msgs else acc.lastMessage⟩ := by
  induction msgs with
  | nil =>
    intro acc
    simp [toGeminiLoop, sysContents, gemHistPart, lastIsUser]
  | cons m rest ih =>
    cases rest with
    | nil =>
      intro acc
      rcases m with ⟨role, content⟩
      cases role <;>
        simp [toGeminiLoop, sysContents, gemHistPart, gemLastPart, lastIsUser, specHistOf,
          List.filter_cons, toGemHistory]
    | cons m2 rest2 =>
      intro acc
      rw [gemHistPart_cons_cons, lastIsUser_cons_cons, gemLastPart_cons_cons]
      by_cases hm : m.role = Role.system
      · rw [show toGeminiLoop (m :: m2 :: rest2) acc = toGeminiLoop (m2 :: rest2)
            { acc with systemInstruction := appendSys acc.systemInstruction m.content } from by
          simp [toGeminiLoop, hm]]
        rw [ih]
        simp [sysContents, List.filter_cons, hm]
      · rw [show toGeminiLoop (m :: m2 :: rest2) acc = toGeminiLoop (m2 :: rest2)
            { acc with history := acc.history ++ [toGemHistory m] } from by
          simp [toGeminiLoop, hm]]
        rw [ih]
        simp [sysContents, List.filter_cons, hm]

lemma newlineJoin_cons (x : String) (l : List String) (h : l ≠ []) :
    newlineJoin (x :: l) = x ++ "\n" ++ newlineJoin l := by
  cases l with
  | nil => exact absurd rfl h
  | cons c rest => rfl

lemma append_ne_empty_of_ne (s c : String) (hs : s ≠ "") :
    s ++ "\n" ++ c ≠ "" := by
  intro h
  have hlen : (s ++ "\n" ++ c).length = s.length + 1 + c.length := by
    simp [String.length_append, show ("\n" : String).length = 1 from rfl]
  rw [h] at hlen
  have hs0 : s.length ≠ 0 := by
    intro h0
    exact hs (String.ext (List.length_eq_zero.mp h0))
  simp at hlen
  omega

lemma foldl_appendSys_of_ne (rest : List String) : ∀ s : String, s ≠ "" →
    List.foldl appendSys s rest = newlineJoin (s :: rest) := by
  induction rest with
  | nil => intro s _; rfl
  | cons c rest ih =>
    intro s hs
    have h1 : appendSys s c = s ++ "\n" ++ c := by
      simp [appendSys, hs, String.append_assoc]
    rw [List.foldl_cons, h1, ih (s ++ "\n" ++ c) (append_ne_empty_of_ne s c hs),
      newlineJoin_cons s (c :: rest) (by simp)]
    cases rest with
    | nil => rfl
    | cons d rest2 =>
      rw [newlineJoin_cons (s ++ "\n" ++ c) (d :: rest2) (by simp),
        newlineJoin_cons c (d :: rest2) (by simp)]
      simp [String.append_assoc]

lemma foldl_appendSys_empty (l : List String) :
    List.foldl appendSys "" l = newlineJoin (l.dropWhile (fun c => c == "")) := by
  induction l with
  | nil => rfl
  | cons c rest ih =>
    by_cases hc : c = ""
    · subst hc
      rw [List.foldl_cons, show appendSys "" "" = "" from rfl, ih]
      rfl
    · rw [List.foldl_cons, show appendSys "" c = c from by simp [appendSys],
        List.dropWhile_cons, if_neg (by simpa using hc)]
      exact foldl_appendSys_of_ne rest c hc

/-- Claim C5 (amended on the separator edge case): `toGeminiMessages`
produces exactly the shape the claim describes — system contents
newline-joined (leading empty contents contributing no separator),
every other message relayed into history with assistant mapped to
model, and the last message extracted as the final turn only when its
role is user, the final-turn slot being empty otherwise. -/
theorem toGeminiMessages_spec (msgs : List ChatMsg) :
    toGeminiMessages msgs = specGemini msgs := by
  rw [toGeminiMessages, toGeminiLoop_spec msgs ⟨"", [], ""⟩]
  unfold specGemini gemHistPart gemLastPart lastIsUser
  cases h : msgs.getLast? with
  | none => simp [foldl_appendSys_empty]
  | some last =>
    by_cases hl : last.role = Role.user
    · simp [hl, foldl_appendSys_empty]
    · simp [hl, foldl_appendSys_empty]

/-- Counterexample to claim C5 as stated: for the message list
`[system "", system "b"]` the source's instruction accumulator skips
the separator while the accumulated instruction is still empty, so the
result `"b"` differs from the plain newline-join `"\nb"`. -/
theorem toGemini_join_counterexample :
    (toGeminiMessages [⟨Role.system, ""⟩, ⟨Role.system, "b"⟩]).systemInstruction = "b" ∧
    newlineJoin (sysContents [⟨Role.system, ""⟩, ⟨Role.system, "b"⟩]) = "\nb" ∧
    ("b" : String) ≠ "\nb" :=
  ⟨rfl, rfl, by decide⟩

lemma streamLoop_spec (chunks : List String) : ∀ acc evs,
    streamLoop chunks acc evs =
      (acc ++ strConcat (chunks.filter (fun c => !(c == ""))),
       evs ++ (chunks.filter (fun c => !(c == ""))).map WireEvent.content) := by
  induction chunks with
  | nil =>
    intro acc evs
    simp [streamLoop, strConcat, String.append_empty]
  | cons c cs ih =>
    intro acc evs
    by_cases hc : c = ""
    · subst hc
      simp only [streamLoop, ne_eq, not_true_eq_false, if_false, List.filter_cons]
      rw [ih]
      simp
    · simp only [streamLoop, ne_eq, hc, not_false_eq_true, if_true, List.filter_cons]
      rw [ih]
      simp [strConcat, String.append_assoc, hc]

/-- Claim C3: when the provider stream throws before completing,
`handleStreaming` signals an error on the byte stream, emits no `done`
frame, and never invokes `addMessageToChat` — the partial accumulation
is discarded. -/
theorem handleStreaming_error_aborts (chunks : List String) (activeChatId : String) :
    (handleStreaming chunks false activeChatId).errored = true ∧
    (handleStreaming chunks false activeChatId).persisted = none ∧
    WireEvent.done ∉ (handleStreaming chunks false activeChatId).events := by
  refine ⟨by simp [handleStreaming, streamLoop_spec],
    by simp [handleStreaming, streamLoop_spec], ?_⟩
  simp [handleStreaming, streamLoop_spec, List.mem_cons, List.mem_map]

/-- Claim C8: on success the wire carries exactly one `chat_metadata`
frame first, the content frames in generation order (each carrying
only that increment's delta), and exactly one `done` frame last. -/
theorem handleStreaming_frame_order (chunks : List String) (activeChatId : String)
    (_h : activeChatId ≠ "") :
    (handleStreaming chunks true activeChatId).events =
      WireEvent.chatMeta activeChatId ::
        ((chunks.filter (fun c => !(c == ""))).map WireEvent.content ++ [WireEvent.done]) := by
  simp [handleStreaming, streamLoop_spec]

/-- Witness for C8 at a concrete stream. -/
theorem handleStreaming_frame_order_witness :
    (handleStreaming ["a", "", "b"] true "chat-1").events =
      WireEvent.chatMeta "chat-1" ::
        (((["a", "", "b"] : List String).filter (fun c => !(c == ""))).map WireEvent.content ++
          [WireEvent.done]) :=
  handleStreaming_frame_order ["a", "", "b"] "chat-1" (by decide)

lemma contentDeltas_frames (cid : String) (l : List String) :
    contentDeltas (WireEvent.chatMeta cid ::
      (l.map WireEvent.content ++ [WireEvent.done])) = l := by
  induction l with
  | nil => rfl
  | cons c cs ih =>
    simpa [contentDeltas, List.filterMap_cons] using ih

set_option maxRecDepth 100000 in
/-- Claim C2: on a successfully completed stream, the concatenation of
the content frames' deltas, in frame order, equals the text passed to
`addMessageToChat`; in the concrete end-to-end scenario with deltas
`"Hel"`, `"lo!"` the persisted text is `"Hello!"` and the decoder's
accumulation sequence is `"Hel"`, `"Hello!"`. -/
theorem handleStreaming_persist_concat (chunks : List String) (activeChatId : String)
    (h : activeChatId ≠ "") :
    (handleStreaming chunks true activeChatId).persisted =
      some (strConcat (contentDeltas (handleStreaming chunks true activeChatId).events)) ∧
    (handleStreaming ["Hel", "lo!"] true "chat-e2e-0001").persisted = some "Hello!" ∧
    contentAccums (consumeSSEStream [encodeFrames
      (handleStreaming ["Hel", "lo!"] true "chat-e2e-0001").events]).2 = ["Hel", "Hello!"] := by
  refine ⟨?_, by rfl, by rfl⟩
  simp only [handleStreaming, streamLoop_spec, List.singleton_append, if_true]
  rw [if_pos h, String.empty_append]
  rw [show WireEvent.chatMeta activeChatId ::
      (chunks.filter (fun c => !(c == ""))).map WireEvent.content ++ [WireEvent.done] =
    WireEvent.chatMeta activeChatId ::
      ((chunks.filter (fun c => !(c == ""))).map WireEvent.content ++ [WireEvent.done]) from by
    simp]
  rw [contentDeltas_frames]

set_option maxRecDepth 100000 in
/-- Witness for C2 at a concrete stream. -/
theorem handleStreaming_persist_concat_witness :
    (handleStreaming ["x"] true "chat-w").persisted =
      some (strConcat (contentDeltas (handleStreaming ["x"] true "chat-w").events)) ∧
    (handleStreaming ["Hel", "lo!"] true "chat-e2e-0001").persisted = some "Hello!" ∧
    contentAccums (consumeSSEStream [encodeFrames
      (handleStreaming ["Hel", "lo!"] true "chat-e2e-0001").events]).2 = ["Hel", "Hello!"] :=
  handleStreaming_persist_concat ["x"] "chat-w" (by decide)

/-- Claim C7: a line without the `data: ` prefix is ignored, an empty
trimmed remainder is ignored, a remainder that fails to parse as JSON
is silently skipped, and a corrupted line between valid lines leaves
the processing of the other lines unchanged. -/
theorem handleSSELine_tolerance :
    (∀ line : String, leadsWith ("data: ".data) line.data = false →
      handleSSELine line = none) ∧
    (∀ line : String, String.mk (jsTrimChars (line.data.drop 6)) = "" →
      handleSSELine line = none) ∧
    (∀ line : String, jsonParse (String.mk (jsTrimChars (line.data.drop 6))) = none →
      handleSSELine line = none) ∧
    (∀ (st : DecState) (ls1 ls2 : List String) (bad : String), handleSSELine bad = none →
      processLines st (ls1 ++ bad :: ls2) = processLines st (ls1 ++ ls2)) := by
  refine ⟨?_, ?_, ?_, ?_⟩
  · intro line h
    simp [handleSSELine, h]
  · intro line h
    by_cases hp : leadsWith ("data: ".data) line.data
    · simp [handleSSELine, hp, h]
    · simp [handleSSELine, hp]
  · intro line h
    by_cases hp : leadsWith ("data: ".data) line.data
    · by_cases hz : String.mk (jsTrimChars (line.data.drop 6)) = ""
      · simp [handleSSELine, hp, hz]
      · simp [handleSSELine, hp, hz, h]
    · simp [handleSSELine, hp]
  · intro st ls1 ls2 bad h
    unfold processLines
    rw [List.foldl_append, List.foldl_append, List.foldl_cons]
    have : processLine (List.foldl processLine st ls1) bad = List.foldl processLine st ls1 := by
      simp [processLine, h]
    rw [this]

set_option maxRecDepth 100000 in
/-- Witness for C7 at concrete lines: a prefixless line, a blank
remainder, a malformed remainder, and a corrupted line sandwiched
between two valid content frames. -/
theorem handleSSELine_tolerance_witness :
    handleSSELine "event: ping" = none ∧
    handleSSELine "data:    " = none ∧
    handleSSELine "data: \x7bnot json" = none ∧
    processLines ⟨"", []⟩
        (["data: \x7b\"type\":\"content\",\"content\":\"a\"\x7d"] ++
          "data: \x7bnot json" :: ["data: \x7b\"type\":\"content\",\"content\":\"b\"\x7d"]) =
      processLines ⟨"", []⟩
        (["data: \x7b\"type\":\"content\",\"content\":\"a\"\x7d"] ++
          ["data: \x7b\"type\":\"content\",\"content\":\"b\"\x7d"]) :=
  ⟨handleSSELine_tolerance.1 "event: ping" rfl,
   handleSSELine_tolerance.2.1 "data:    " rfl,
   handleSSELine_tolerance.2.2.1 "data: \x7bnot json" rfl,
   handleSSELine_tolerance.2.2.2 ⟨"", []⟩
     ["data: \x7b\"type\":\"content\",\"content\":\"a\"\x7d"]
     ["data: \x7b\"type\":\"content\",\"content\":\"b\"\x7d"]
     "data: \x7bnot json" rfl⟩

lemma contentAccums_append (l1 l2 : List SSEEvent) :
    contentAccums (l1 ++ l2) = contentAccums l1 ++ contentAccums l2 := by
  simp [contentAccums, List.filterMap_append]

lemma strLeads_length {a b : String} (h : strLeads a b) : a.length ≤ b.length := by
  obtain ⟨t, rfl⟩ := h
  simp [String.length_append]

lemma processLine_ok (st : DecState) (line : String) (h : decStateOk st) :
    decStateOk (processLine st line) := by
  unfold processLine
  cases hl : handleSSELine line with
  | none => exact h
  | some act =>
    cases act with
    | metaA v =>
      refine ⟨?_, ?_⟩
      · simpa [contentAccums_append, contentAccums] using h.1
      · intro a ha
        apply h.2
        simpa [contentAccums_append, contentAccums] using ha
    | contentA v =>
      refine ⟨?_, ?_⟩
      · rw [show contentAccums ((st.events ++
            [SSEEvent.onContent (st.accumulated ++ toJSString v)])) =
          contentAccums st.events ++ [st.accumulated ++ toJSString v] from by
            simp [contentAccums_append, contentAccums]]
        rw [List.chain'_append]
        refine ⟨h.1, List.chain'_singleton _, ?_⟩
        intro x hx y hy
        simp only [List.head?_cons, Option.mem_def, Option.some.injEq] at hy
        subst hy
        obtain ⟨t, ht⟩ := h.2 x (by simpa using hx)
        exact ⟨t ++ toJSString v, by rw [ht, String.append_assoc]⟩
      · intro a ha
        rw [show contentAccums ((st.events ++
            [SSEEvent.onContent (st.accumulated ++ toJSString v)])) =
          contentAccums st.events ++ [st.accumulated ++ toJSString v] from by
            simp [contentAccums_append, contentAccums],
          List.getLast?_concat] at ha
        obtain rfl : st.accumulated ++ toJSString v = a := by simpa using ha
        exact ⟨"", (String.append_empty _).symm⟩

lemma processLines_ok (lines : List String) : ∀ st : DecState, decStateOk st →
    decStateOk (processLines st lines) := by
  induction lines with
  | nil => intro st h; exact h
  | cons l rest ih =>
    intro st h
    exact ih (processLine st l) (processLine_ok st l h)

lemma consumeFold_ok (chunks : List (List Nat)) :
    ∀ p : List Nat × DecState, decStateOk p.2 →
      decStateOk (chunks.foldl consumeStep p).2 := by
  induction chunks with
  | nil => intro p h; exact h
  | cons c rest ih =>
    intro p h
    rw [List.foldl_cons]
    exact ih _ (processLines_ok _ _ h)

set_option maxRecDepth 100000 in
/-- Claim C9 (amended on strictness): the decoder's `onContent`
invocations report the running accumulation — each reported value is an
initial segment of the next, so the accumulated lengths are
non-decreasing (not strictly increasing: a truthy payload whose JS
string coercion is empty repeats the previous total) — they are
delivered in frame-read order, and a line whose parse selects no
callback (in particular a `done` frame) leaves state and accumulation
unchanged. -/
theorem sse_decoder_accumulation (chunks : List (List Nat)) :
    List.Chain' strLeads (contentAccums (consumeSSEStream chunks).2) ∧
    List.Chain' (fun a b : String => a.length ≤ b.length)
      (contentAccums (consumeSSEStream chunks).2) ∧
    (∀ (st : DecState) (line : String), handleSSELine line = none →
      processLine st line = st) ∧
    handleSSELine "data: \x7b\"type\":\"done\"\x7d" = none := by
  have h0 : decStateOk (⟨"", []⟩ : DecState) := by
    constructor
    · simp [contentAccums]
    · intro a ha
      simp [contentAccums] at ha
  have hok := consumeFold_ok chunks ([], ⟨"", []⟩) h0
  have hev : (consumeSSEStream chunks).2 =
      (chunks.foldl consumeStep ([], ⟨"", []⟩)).2.events := rfl
  refine ⟨?_, ?_, ?_, by rfl⟩
  · rw [hev]; exact hok.1
  · rw [hev]
    exact List.Chain'.imp (fun a b hab => strLeads_length hab) hok.1
  · intro st line h
    simp [processLine, h]

set_option maxRecDepth 100000 in
/-- Witness for C9's amended statement at a concrete stream and line. -/
theorem sse_decoder_accumulation_witness :
    List.Chain' strLeads (contentAccums (consumeSSEStream [c9Bytes]).2) ∧
    processLine ⟨"", []⟩ "not a frame" = ⟨"", []⟩ :=
  ⟨(sse_decoder_accumulation [c9Bytes]).1,
   (sse_decoder_accumulation [c9Bytes]).2.2.1 ⟨"", []⟩ "not a frame" rfl⟩

set_option maxRecDepth 100000 in
/-- Counterexample to claim C9 as stated: the frame
`data: {"type":"content","content":[]}` has a truthy `content` whose JS
string coercion is empty, so `onContent` fires again with an unchanged
accumulation — the accumulated lengths are not strictly increasing. -/
theorem sse_strict_increase_counterexample :
    contentAccums (consumeSSEStream [c9Bytes]).2 = ["A", "A"] ∧
    ¬ List.Chain' (fun a b : String => a.length < b.length)
        (contentAccums (consumeSSEStream [c9Bytes]).2) := by
  have h : contentAccums (consumeSSEStream [c9Bytes]).2 = ["A", "A"] := by rfl
  refine ⟨h, ?_⟩
  rw [h, List.chain'_cons]
  intro hc
  exact absurd hc.1 (lt_irrefl _)

set_option maxRecDepth 100000 in
/-- Claim C1 fails on the code: the same frame bytes produce `"A"` when
read in one chunk but `""` when the read boundary falls mid-frame,
because `consumeSSEStream` splits each decoded chunk on newlines
without carrying a partial line over to the next read. -/
theorem sse_chunk_split_divergence :
    (consumeSSEStream [c1Bytes]).1 = "A" ∧
    c1Bytes.take 8 ++ c1Bytes.drop 8 = c1Bytes ∧
    (consumeSSEStream [c1Bytes.take 8, c1Bytes.drop 8]).1 = "" :=
  ⟨rfl, List.take_append_drop 8 c1Bytes, rfl⟩

